import Mathlib

/-!
Verification development for the hydropt repository (src/hydropt/model.py).

The Python model is shallowly embedded as follows.

Numbers: all float inputs of the model (volumes, levels, efficiencies) are
embedded as rationals; the level values produced by the wedge shape model go
through a square root, so lookup-table level columns and everything downstream
of them live in the reals.  Division by zero follows the Lean field convention
x / 0 = 0.

Object graph: the Python classes hold mutable back references (a Basin points
to the PowerPlant that owns it, assigned by the basins setter).  The embedding
breaks the cycle by splitting a Basin into its immutable data (structure Basin
below, the fields set by Basin.init) and a BoundBasin pairing that data with
the Option-valued power_plant attribute; PowerPlant.bindBasins models the
effect of the basins setter, which stamps the owning plant into every basin of
the list.

numpy arrays that can be either scalars or vectors (the result of
Basin.kron_levels and everything derived from it in Turbine) are embedded as
the inductive type NpArr, with broadcasting subtraction, multiplication and
division modelled for the scalar and equal-length cases the model exercises;
other shape combinations return an error value, as numpy raises.

The functions kron_index and kron_indices live in hydropt/core.py, and the
action classes in hydropt/action.py; neither file is under src, so those
definitions are modelled from the spec (section 4.2 and section 3 of spec.md)
and are marked as such in their doc comments.
-/

namespace Hydropt

/-- Embedding of numpy.linspace a b n over the rationals: n points
a + (b - a) * i / (n - 1).  For n = 1 the division by zero convention yields
the singleton [a], matching numpy. -/
def linspace (a b : ℚ) (n : ℕ) : List ℚ :=
  (List.range n).map (fun i : ℕ => a + (b - a) * (i : ℚ) / ((n : ℚ) - 1))

/-- Embedding of numpy.interp x xp fp, the piecewise linear interpolation used
by BasinLevels.values.  The abscissas are the rational first components, the
ordinates the real second components.  Points below the first abscissa clamp
to the first ordinate and points above the last clamp to the last ordinate,
as numpy does for increasing xp. -/
noncomputable def interp (x : ℚ) : List (ℚ × ℝ) → ℝ
  | [] => 0
  | [(_, y0)] => y0
  | (x0, y0) :: (x1, y1) :: rest =>
    if x ≤ x0 then y0
    else if x ≤ x1 then
      y0 + (y1 - y0) * (((x : ℝ) - (x0 : ℝ)) / ((x1 : ℝ) - (x0 : ℝ)))
    else interp x ((x1, y1) :: rest)

/-- Embedding of the wedge branch of BasinLevels.compute_vol_to_level_lut
(model.py lines 31 to 45): volumes linearly spaced over [0, volume]; if
empty < full the levels are sqrt(vols / length) + empty with
height = full - empty, A = height squared, length = volume / A, otherwise the
level column is constantly empty.  The result pairs each grid volume with its
level, as np.stack((vols, levels)).T does. -/
noncomputable def wedge_lut (empty full volume : ℚ) (num_states : ℕ) : List (ℚ × ℝ) :=
  let vols := linspace 0 volume num_states
  if empty < full then
    let height := full - empty
    let A := height ^ 2
    let length := volume / A
    vols.zip (vols.map (fun v => Real.sqrt ((v / length : ℚ) : ℝ) + (empty : ℝ)))
  else
    vols.zip (vols.map (fun _ => (empty : ℝ)))

/-- Embedding of BasinLevels.compute_vol_to_level_lut (model.py lines 29 to
51).  The wedge shape produces the wedge lookup table; any other shape name
raises, embedded as an error value (the Python ValueError message, with its
quote characters dropped, typo wegde included). -/
noncomputable def compute_vol_to_level_lut (empty full volume : ℚ) (num_states : ℕ)
    (basin_shape : String) : Except String (List (ℚ × ℝ)) :=
  if basin_shape = "wedge" then
    .ok (wedge_lut empty full volume num_states)
  else
    .error ("Basin shape " ++ basin_shape ++
      " not implemented. Choose from the following models [wegde]")

/-- Embedding of the BasinLevels.values property (model.py lines 53 to 67) for
a BasinLevels bound to a basin with the given volume and num_states: the
lookup table interpolated at the num_states evenly spaced grid volumes. -/
noncomputable def lut_values (volume : ℚ) (num_states : ℕ) (lut : List (ℚ × ℝ)) : List ℝ :=
  (linspace 0 volume num_states).map (fun v => interp v lut)

/-- The data held by a constructed BasinLevels object: empty and full levels
and the volume-to-level lookup table. -/
structure BasinLevelsData where
  empty : ℚ
  full : ℚ
  vol_to_level_lut : List (ℚ × ℝ)
deriving Inhabited

/-- Embedding of BasinLevels.init (model.py lines 12 to 26), for a BasinLevels
bound to a basin with the given volume and num_states.  A missing full
defaults to empty; a missing lookup table is computed from the shape model,
which can fail for an unsupported shape; a supplied lookup table is stored as
given without consulting the shape. -/
noncomputable def mkBasinLevels (empty : ℚ) (fullOpt : Option ℚ) (volume : ℚ)
    (num_states : ℕ) (lutOpt : Option (List (ℚ × ℝ))) (basin_shape : String) :
    Except String BasinLevelsData :=
  let fl := fullOpt.getD empty
  match lutOpt with
  | some lut => .ok ⟨empty, fl, lut⟩
  | none =>
    match compute_vol_to_level_lut empty fl volume num_states basin_shape with
    | .ok lut => .ok ⟨empty, fl, lut⟩
    | .error e => .error e

/-- The levels argument accepted by the Basin.levels setter (model.py lines 96
to 104): a (empty, full) tuple or a single scalar level; in both cases the
setter builds a BasinLevels whose empty and full are as given (full = empty in
the scalar case). -/
inductive LevelsSpec where
  | single (level : ℚ)
  | pair (empty full : ℚ)
deriving DecidableEq

/-- The empty level the Basin.levels setter passes to BasinLevels. -/
def LevelsSpec.empty : LevelsSpec → ℚ
  | .single l => l
  | .pair e _ => e

/-- The full level the Basin.levels setter passes to BasinLevels. -/
def LevelsSpec.full : LevelsSpec → ℚ
  | .single l => l
  | .pair _ f => f

/-- Embedding of the immutable data of a Basin (model.py lines 80 to 90): the
fields set by Basin.init, except the mutable power_plant back reference, which
lives in BoundBasin below. -/
structure Basin where
  name : String
  volume : ℚ
  num_states : ℕ
  init_volume : ℚ
  levels : LevelsSpec
deriving DecidableEq

/-- Embedding of Basin.init.  The constructor performs no validation of its
arguments. -/
def mkBasin (name : String) (volume : ℚ) (num_states : ℕ) (init_volume : ℚ)
    (levels : LevelsSpec) : Basin :=
  ⟨name, volume, num_states, init_volume, levels⟩

/-- Embedding of Outflow.init (model.py lines 118 to 120): volume 1, two
states, zero initial volume, constant level map from the scalar
outflow_level. -/
def Outflow (outflow_level : ℚ) (name : String) : Basin :=
  mkBasin name 1 2 0 (.single outflow_level)

/-- Embedding of PowerPlant for the state-space side: the basin list in
configuration order (model.py lines 153 to 189).  The turbine and action lists
of the Python class are passed explicitly to turbine_actions and actions
below, which breaks the reference cycle between plants and turbines. -/
structure PowerPlant where
  basins : List Basin
deriving DecidableEq

/-- A basin together with its power_plant attribute.  In Python the attribute
is mutable and is assigned by the PowerPlant.basins setter; a basin never
placed in a basins list keeps the constructor default None. -/
structure BoundBasin where
  basin : Basin
  power_plant : Option PowerPlant
deriving DecidableEq

/-- Embedding of the PowerPlant.basins setter (model.py lines 164 to 168): it
stamps the plant into the power_plant attribute of every basin of the list.
The result is the list of basins as they stand after the assignment. -/
def PowerPlant.bindBasins (pp : PowerPlant) : List BoundBasin :=
  pp.basins.map (fun b => ⟨b, some pp⟩)

/-- Embedding of PowerPlant.basin_index (model.py lines 170 to 174):
list.index wrapped so that a basin that is not in the list yields None instead
of raising ValueError. -/
def PowerPlant.basin_index (pp : PowerPlant) (b : Basin) : Option ℕ :=
  pp.basins.findIdx? (fun x => decide (x = b))

/-- Embedding of PowerPlant.basin_num_states (model.py lines 179 to 180). -/
def PowerPlant.basin_num_states (pp : PowerPlant) : List ℕ :=
  pp.basins.map Basin.num_states

/-- Embedding of PowerPlant.num_states (model.py lines 188 to 189): the
product of the per-basin state counts. -/
def PowerPlant.num_states (pp : PowerPlant) : ℕ :=
  pp.basin_num_states.prod

/-- Modelled from the spec: hydropt/core.py is not under src.  Section 4.2 of
spec.md: the mixed-radix digit of joint state s in dimension i, with the
row-major convention (the last dimension varies fastest), so the stride of
dimension i is the product of the dimensions after i. -/
def kronDigit (dims : List ℕ) (i : ℕ) (s : ℕ) : ℕ :=
  (s / (dims.drop (i + 1)).prod) % dims.getD i 1

/-- Modelled from the spec: hydropt/core.py is not under src.  Section 4.2 of
spec.md: kron_index(dims, i) is the length-N sequence (N the product of dims)
giving, for every joint state, the per-dimension index of dimension i. -/
def kron_index (dims : List ℕ) (i : ℕ) : List ℕ :=
  (List.range dims.prod).map (kronDigit dims i)

/-- Modelled from the spec: hydropt/core.py is not under src.  Section 4.2 of
spec.md: kron_indices(dims, sel) enumerates, in mixed-radix order, every
combination of per-dimension indices, keeping the dimensions selected by
sel. -/
def kron_indices (dims : List ℕ) (sel : List ℕ) : List (List ℕ) :=
  (List.range dims.prod).map (fun s => sel.map (fun i => kronDigit dims i s))

/-- The lookup table of the BasinLevels a Basin builds through its levels
setter: the setter constructs BasinLevels(empty, full, basin=self) with the
default shape wedge, so the table is the wedge table for the basin volume and
state count. -/
noncomputable def Basin.lut (b : Basin) : List (ℚ × ℝ) :=
  wedge_lut b.levels.empty b.levels.full b.volume b.num_states

/-- The values property of the BasinLevels attached to a Basin. -/
noncomputable def Basin.values (b : Basin) : List ℝ :=
  lut_values b.volume b.num_states b.lut

/-- A numpy array that is either a zero-dimensional scalar or a
one-dimensional vector, the two shapes Basin.kron_levels can return. -/
inductive NpArr where
  | scalar (x : ℝ)
  | vec (xs : List ℝ)

/-- Pointwise predicate over an NpArr: the scalar satisfies P, or every
component of the vector does. -/
def NpAll (P : ℝ → Prop) : NpArr → Prop
  | .scalar x => P x
  | .vec xs => ∀ x ∈ xs, P x

/-- numpy broadcasting subtraction for the shapes the model exercises:
scalars broadcast against vectors, and equal-length vectors subtract
componentwise; mismatched vector lengths are a numpy error. -/
noncomputable def npSub : NpArr → NpArr → Except String NpArr
  | .scalar a, .scalar b => .ok (.scalar (a - b))
  | .vec xs, .scalar b => .ok (.vec (xs.map (fun x => x - b)))
  | .scalar a, .vec ys => .ok (.vec (ys.map (fun y => a - y)))
  | .vec xs, .vec ys =>
    if xs.length = ys.length then .ok (.vec (List.zipWith (fun x y => x - y) xs ys))
    else .error "operands could not be broadcast together"

/-- numpy broadcasting multiplication, same shape discipline as npSub. -/
noncomputable def npMul : NpArr → NpArr → Except String NpArr
  | .scalar a, .scalar b => .ok (.scalar (a * b))
  | .vec xs, .scalar b => .ok (.vec (xs.map (fun x => x * b)))
  | .scalar a, .vec ys => .ok (.vec (ys.map (fun y => a * y)))
  | .vec xs, .vec ys =>
    if xs.length = ys.length then .ok (.vec (List.zipWith (fun x y => x * y) xs ys))
    else .error "operands could not be broadcast together"

/-- numpy broadcasting division, same shape discipline as npSub. -/
noncomputable def npDiv : NpArr → NpArr → Except String NpArr
  | .scalar a, .scalar b => .ok (.scalar (a / b))
  | .vec xs, .scalar b => .ok (.vec (xs.map (fun x => x / b)))
  | .scalar a, .vec ys => .ok (.vec (ys.map (fun y => a / y)))
  | .vec xs, .vec ys =>
    if xs.length = ys.length then .ok (.vec (List.zipWith (fun x y => x / y) xs ys))
    else .error "operands could not be broadcast together"

/-- Multiplication of an NpArr by a scalar on the left. -/
noncomputable def npMulC (c : ℝ) : NpArr → NpArr
  | .scalar x => .scalar (c * x)
  | .vec xs => .vec (xs.map (fun x => c * x))

/-- Division of an NpArr by a scalar. -/
noncomputable def npDivC : NpArr → ℝ → NpArr
  | .scalar x, c => .scalar (x / c)
  | .vec xs, c => .vec (xs.map (fun x => x / c))

/-- Embedding of Basin.kron_levels (model.py lines 106 to 112).  A basin whose
power_plant attribute is None returns the scalar empty level; a basin bound to
a plant returns its interpolated values fancy-indexed by kron_index, a
length-N vector over the joint states.  If the basin is bound to a plant whose
basins list does not contain it, basin_index yields None and the Python code
raises a TypeError inside kron_index, embedded as an error value. -/
noncomputable def BoundBasin.kron_levels (bb : BoundBasin) : Except String NpArr :=
  match bb.power_plant with
  | none => .ok (.scalar (bb.basin.levels.empty : ℝ))
  | some pp =>
    match pp.basin_index bb.basin with
    | some i =>
      .ok (.vec ((kron_index pp.basin_num_states i).map (fun j => bb.basin.values.getD j 0)))
    | none => .error "TypeError: kron_index index is None"

/-- Embedding of Turbine.init (model.py lines 129 to 137). -/
structure Turbine where
  name : String
  max_power : ℚ
  base_load : ℚ
  upper_basin : BoundBasin
  lower_basin : BoundBasin
  efficiency : ℚ
deriving DecidableEq

/-- Embedding of Turbine.head (model.py lines 139 to 140): upper basin
broadcast levels minus lower basin broadcast levels. -/
noncomputable def Turbine.head (t : Turbine) : Except String NpArr :=
  match t.upper_basin.kron_levels, t.lower_basin.kron_levels with
  | .ok u, .ok l => npSub u l
  | .error e, _ => .error e
  | .ok _, .error e => .error e

/-- Embedding of Turbine.power (model.py lines 142 to 143):
efficiency * (1000 * 9.81) * head * flow_rate, with the multiplications
grouped as Python evaluates them. -/
noncomputable def Turbine.power (t : Turbine) (flow_rate : NpArr) : Except String NpArr :=
  match t.head with
  | .ok h => npMul (npMulC ((t.efficiency : ℝ) * (1000 * 9.81)) h) flow_rate
  | .error e => .error e

/-- Embedding of Turbine.flow_rate (model.py lines 145 to 146):
(power / (efficiency * (1000 * 9.81))) / head. -/
noncomputable def Turbine.flow_rate (t : Turbine) (power : NpArr) : Except String NpArr :=
  match t.head with
  | .ok h => npDiv (npDivC power ((t.efficiency : ℝ) * (1000 * 9.81))) h
  | .error e => .error e

/-- Modelled from the spec: hydropt/action.py is not under src.  Section 3 of
spec.md: the Action variants Standing, PowerMin and PowerMax. -/
inductive ActionKind where
  | standing
  | powerMin
  | powerMax
deriving DecidableEq

/-- Modelled from the spec: hydropt/action.py is not under src.  Section 3 of
spec.md: an Action is a variant carrying a reference to its turbine; the
resolution rule plays no role in the enumeration claims and is omitted. -/
structure Action where
  kind : ActionKind
  turbine : Turbine
deriving DecidableEq

/-- Default action used only as the junk value of out-of-range list indexing
in the embedding of PowerPlant.actions; the indices are always in range. -/
def defaultAction : Action :=
  ⟨.standing, ⟨"", 0, 0, ⟨mkBasin "" 0 0 0 (.single 0), none⟩,
    ⟨mkBasin "" 0 0 0 (.single 0), none⟩, 0⟩⟩

/-- Embedding of PowerPlant.turbine_actions (model.py lines 191 to 195): for
each turbine, in turbine list order, the configured actions whose turbine is
that turbine. -/
def turbine_actions (turbines : List Turbine) (cfg : List Action) : List (List Action) :=
  turbines.map (fun t => cfg.filter (fun a => decide (a.turbine = t)))

/-- The group-building loop of PowerPlant.actions: for combination comb, the
list turbine_actions[k][comb[k]] for k below the length of comb. -/
def selectComb {α : Type} (d : α) (ls : List (List α)) (comb : List ℕ) : List α :=
  (List.range comb.length).map (fun k => (ls.getD k []).getD (comb.getD k 0) d)

/-- Embedding of PowerPlant.actions (model.py lines 197 to 207): enumerate
kron_indices over the per-turbine action counts and build one joint action
(one ordered group of per-turbine actions, the data of a PowerPlantAction) per
combination.  The PowerPlantAction and PowerPlantActions wrappers live in
hydropt/action.py, which is not under src; modelled from the spec (section 3:
a PowerPlantAction is an ordered tuple of one Action per turbine), a joint
action is embedded as the plain list of its per-turbine actions. -/
def actions (turbines : List Turbine) (cfg : List Action) : List (List Action) :=
  (kron_indices ((turbine_actions turbines cfg).map List.length)
    (List.range ((turbine_actions turbines cfg).map List.length).length)).map
    (fun comb => selectComb defaultAction (turbine_actions turbines cfg) comb)

/-- The row-major Cartesian product of a list of lists: every way of picking
one element from each list, first factor varying slowest.  This is the
claim-side specification the kron_indices enumeration is compared against. -/
def cartesianProduct {α : Type} : List (List α) → List (List α)
  | [] => [[]]
  | l :: ls => l.flatMap (fun x => (cartesianProduct ls).map (fun c => x :: c))

/-- The two example basins of src/example_1.py. -/
def basin_1 : Basin := mkBasin "basin_1" (81 * 3600) 81 (10 * 3600) (.pair 2000 2120)

/-- The second example basin of src/example_1.py. -/
def basin_2 : Basin := mkBasin "basin_2" (31 * 3600) 41 (10 * 3600) (.pair 1200 1250)

/-- The example plant of src/example_1.py, state-space side. -/
def examplePlant : PowerPlant := ⟨[basin_1, basin_2]⟩

/-- The example outflow sink of src/example_1.py. -/
def exampleOutflow : Basin := Outflow 600 "Outflow"

/-- The first example turbine of src/example_1.py, with its basins bound to
the example plant as the PowerPlant constructor leaves them. -/
def turbine_1 : Turbine :=
  ⟨"turbine_1", 33000000, 10000000, ⟨basin_1, some examplePlant⟩,
    ⟨basin_2, some examplePlant⟩, 4 / 5⟩

/-- The second example turbine of src/example_1.py; its lower basin is the
outflow sink, which is in no basins list and so stays unbound. -/
def turbine_2 : Turbine :=
  ⟨"turbine_2", 15000000, 7000000, ⟨basin_2, some examplePlant⟩,
    ⟨exampleOutflow, none⟩, 4 / 5⟩

/-- The six configured actions of src/example_1.py: Standing, PowerMin and
PowerMax for each of the two turbines. -/
def exampleActions : List Action :=
  [⟨.standing, turbine_1⟩, ⟨.powerMin, turbine_1⟩, ⟨.powerMax, turbine_1⟩,
   ⟨.standing, turbine_2⟩, ⟨.powerMin, turbine_2⟩, ⟨.powerMax, turbine_2⟩]

/-- A turbine with efficiency zero between two constant-level unbound basins:
the C2 counterexample configuration. -/
def cexTurbine : Turbine :=
  ⟨"t0", 1, 1, ⟨mkBasin "u" 1 2 0 (.single 10), none⟩, ⟨Outflow 0 "Outflow", none⟩, 0⟩

/-- The same configuration with efficiency one: the C2 witness turbine. -/
def witTurbine : Turbine :=
  ⟨"t1", 1, 1, ⟨mkBasin "u" 1 2 0 (.single 10), none⟩, ⟨Outflow 0 "Outflow", none⟩, 1⟩

/-- A one-basin plant used by the C3 and C10 witnesses. -/
def witPlant : PowerPlant := ⟨[mkBasin "b1" 1 2 0 (.single 5)]⟩

/-- The basin of witPlant, bound to it as the basins setter leaves it. -/
def witUpper : BoundBasin := ⟨mkBasin "b1" 1 2 0 (.single 5), some witPlant⟩

/-- A turbine from the bound witPlant basin down to an unbound outflow sink:
the C3 witness configuration. -/
def witTurbine3 : Turbine := ⟨"t3", 1, 1, witUpper, ⟨Outflow 0 "Outflow", none⟩, 1⟩

/- ------------------------------------------------------------------ -/
/- Theorems.                                                           -/
/- ------------------------------------------------------------------ -/

/-- Zipping a list with its own image under a map is the map of the pairing
function. -/
theorem zip_self_map {α β : Type} (l : List α) (g : α → β) :
    l.zip (l.map g) = l.map (fun a => (a, g a)) := by
  have h := List.zip_map' (fun a => a) g l
  simpa using h

/-- Both branches of the wedge table are a single map over the volume grid:
each grid volume is paired with sqrt of volume over length plus the empty
level when empty is below full, and with the empty level otherwise. -/
theorem wedge_lut_eq_map (empty full volume : ℚ) (n : ℕ) :
    wedge_lut empty full volume n =
      (linspace 0 volume n).map (fun v =>
        (v, if empty < full
            then Real.sqrt ((v / (volume / (full - empty) ^ 2) : ℚ) : ℝ) + (empty : ℝ)
            else (empty : ℝ))) := by
  unfold wedge_lut
  by_cases h : empty < full
  · rw [if_pos h, zip_self_map]
    exact List.map_congr_left fun v _ => by rw [if_pos h]
  · rw [if_neg h, zip_self_map]
    exact List.map_congr_left fun v _ => by rw [if_neg h]

/-- The i-th grid volume of linspace in closed form. -/
theorem linspace_getD (a b : ℚ) (n i : ℕ) (hi : i < n) :
    (linspace a b n).getD i 0 = a + (b - a) * (i : ℚ) / ((n : ℚ) - 1) := by
  unfold linspace
  rw [List.getD_eq_getElem _ _ (by rw [List.length_map, List.length_range]; exact hi)]
  simp only [List.getElem_map, List.getElem_range]

/-- C1: compute_vol_to_level_lut with the wedge shape returns the table
pairing the num_states volumes linearly spaced over [0, volume] with the
levels sqrt(v / length) + empty for length = volume / (full - empty) squared
when empty is below full, and with the constant level empty for every grid
volume when empty is at or above full. -/
theorem C1_wedge_construction (empty full volume : ℚ) (n : ℕ) :
    compute_vol_to_level_lut empty full volume n "wedge" =
      .ok ((linspace 0 volume n).map (fun v =>
        (v, if empty < full
            then Real.sqrt ((v : ℝ) / ((volume : ℝ) / ((full : ℝ) - (empty : ℝ)) ^ 2))
                + (empty : ℝ)
            else (empty : ℝ)))) := by
  unfold compute_vol_to_level_lut
  rw [if_pos rfl, wedge_lut_eq_map]
  refine congrArg Except.ok (List.map_congr_left fun v _ => ?_)
  by_cases h : empty < full
  · rw [if_pos h, if_pos h]
    congr 1
    congr 1
    push_cast
    ring
  · rw [if_neg h, if_neg h]

/-- C8 counterexample: constructing a BasinLevels with a supplied lookup
table does not consult the shape name, so a construction with the shape cone
succeeds; the claim that every construction with a shape other than wedge
fails is therefore false as stated. -/
theorem C8_counterexample :
    mkBasinLevels 0 none 1 2 (some [(0, 0)]) "cone" = .ok ⟨0, 0, [(0, 0)]⟩ ∧
    "cone" ≠ "wedge" :=
  ⟨rfl, by decide⟩

/-- C8 amended: constructing a BasinLevels without a supplied lookup table,
or calling compute_vol_to_level_lut, with any shape name other than wedge
fails with the configuration error, and no lookup table is produced. -/
theorem C8_unsupported_shape (empty : ℚ) (fullOpt : Option ℚ) (volume : ℚ) (n : ℕ)
    (shape : String) (hs : shape ≠ "wedge") :
    mkBasinLevels empty fullOpt volume n none shape =
      .error ("Basin shape " ++ shape ++
        " not implemented. Choose from the following models [wegde]") ∧
    compute_vol_to_level_lut empty (fullOpt.getD empty) volume n shape =
      .error ("Basin shape " ++ shape ++
        " not implemented. Choose from the following models [wegde]") := by
  have hc : compute_vol_to_level_lut empty (fullOpt.getD empty) volume n shape =
      .error ("Basin shape " ++ shape ++
        " not implemented. Choose from the following models [wegde]") := by
    unfold compute_vol_to_level_lut
    rw [if_neg hs]
  refine ⟨?_, hc⟩
  have hdef : mkBasinLevels empty fullOpt volume n none shape =
      match compute_vol_to_level_lut empty (fullOpt.getD empty) volume n shape with
      | .ok lut => .ok ⟨empty, fullOpt.getD empty, lut⟩
      | .error e => .error e := rfl
  rw [hdef, hc]

/-- C8 witness: the amended theorem applied to the concrete shape cone. -/
theorem C8_unsupported_shape_witness :
    ("cone" : String) ≠ "wedge" ∧
    (mkBasinLevels 0 none 1 2 none "cone" =
      .error ("Basin shape " ++ "cone" ++
        " not implemented. Choose from the following models [wegde]") ∧
     compute_vol_to_level_lut 0 ((none : Option ℚ).getD 0) 1 2 "cone" =
      .error ("Basin shape " ++ "cone" ++
        " not implemented. Choose from the following models [wegde]")) :=
  ⟨by decide, C8_unsupported_shape 0 none 1 2 "cone" (by decide)⟩

/-- C9 counterexample: Basin.init performs no validation, so a basin with a
single state and an initial volume above its capacity is constructed without
complaint, violating both halves of the claimed invariant. -/
theorem C9_counterexample :
    (mkBasin "b" 1 1 5 (.single 0)).num_states < 2 ∧
    ¬ (mkBasin "b" 1 1 5 (.single 0)).init_volume ≤ (mkBasin "b" 1 1 5 (.single 0)).volume := by
  exact ⟨by decide, by decide⟩

/-- C9 amended: the Basin constructor does not enforce the invariant, but the
Outflow constructor always satisfies it (num_states 2, init_volume 0 within
[0, volume]), and binding a basin list to a plant leaves every basin field
unchanged, only setting the power_plant reference. -/
theorem C9_invariants (level : ℚ) (nm : String) (pp : PowerPlant) :
    2 ≤ (Outflow level nm).num_states ∧
    0 ≤ (Outflow level nm).init_volume ∧
    (Outflow level nm).init_volume ≤ (Outflow level nm).volume ∧
    pp.bindBasins.map BoundBasin.basin = pp.basins := by
  refine ⟨le_refl 2, le_refl 0, by norm_num [Outflow, mkBasin], ?_⟩
  unfold PowerPlant.bindBasins
  rw [List.map_map]
  exact List.map_id _

/-- C10: the basins setter stamps the plant into every basin of the list; a
basin whose power_plant attribute is still None yields the scalar empty level
from kron_levels rather than a joint-state vector; and basin_index of a basin
that is not in the basins list is None rather than an exception. -/
theorem C10_power_plant_references (pp : PowerPlant) (b : Basin) :
    (∀ bb ∈ pp.bindBasins, bb.power_plant = some pp) ∧
    (BoundBasin.mk b none).kron_levels = .ok (.scalar (b.levels.empty : ℝ)) ∧
    (b ∉ pp.basins → pp.basin_index b = none) := by
  refine ⟨?_, rfl, ?_⟩
  · intro bb hbb
    unfold PowerPlant.bindBasins at hbb
    obtain ⟨c, _, rfl⟩ := List.mem_map.1 hbb
    rfl
  · intro hnb
    unfold PowerPlant.basin_index
    rw [List.findIdx?_eq_none_iff]
    intro x hx
    rcases eq_or_ne x b with rfl | hne
    · exact absurd hx hnb
    · simpa using hne

/-- C10 witness: basin_2 is not in the one-basin witness plant, and its
basin_index there is None. -/
theorem C10_power_plant_references_witness :
    basin_2 ∉ witPlant.basins ∧ witPlant.basin_index basin_2 = none :=
  ⟨by decide, (C10_power_plant_references witPlant basin_2).2.2 (by decide)⟩

/-- Decomposition of the joint state range by the first mixed-radix digit. -/
theorem range_mul_flatMap (d P : ℕ) :
    List.range (d * P) =
      (List.range d).flatMap (fun q => (List.range P).map (fun r => q * P + r)) := by
  induction d with
  | zero => simp
  | succ d ih =>
    rw [Nat.succ_mul, List.range_add, ih, List.range_succ, List.flatMap_append]
    simp

/-- The first mixed-radix digit of q * P + r in dimensions d :: ds, for P the
product of ds, is q. -/
theorem kronDigit_head (d : ℕ) (ds : List ℕ) (q r : ℕ) (hq : q < d) (hr : r < ds.prod) :
    kronDigit (d :: ds) 0 (q * ds.prod + r) = q := by
  unfold kronDigit
  simp only [List.drop_succ_cons, List.drop_zero, List.getD_cons_zero]
  have hP0 : 0 < ds.prod := by omega
  rw [Nat.mul_comm q, Nat.mul_add_div hP0, Nat.div_eq_of_lt hr, Nat.add_zero,
    Nat.mod_eq_of_lt hq]

/-- Later mixed-radix digits of q * P + r in dimensions d :: ds only see r. -/
theorem kronDigit_tail (d : ℕ) (ds : List ℕ) (i q r : ℕ) (hr : r < ds.prod) :
    kronDigit (d :: ds) (i + 1) (q * ds.prod + r) = kronDigit ds i r := by
  unfold kronDigit
  simp only [List.drop_succ_cons, List.getD_cons_succ]
  rcases Nat.lt_or_ge i ds.length with hi | hi
  · have hP0 : 0 < ds.prod := by omega
    have hsplit : (ds.take (i + 1)).prod * (ds.drop (i + 1)).prod = ds.prod :=
      List.prod_take_mul_prod_drop ds (i + 1)
    have hS0 : 0 < (ds.drop (i + 1)).prod := by
      rcases Nat.eq_zero_or_pos (ds.drop (i + 1)).prod with h0 | h0
      · rw [h0, Nat.mul_zero] at hsplit
        omega
      · exact h0
    have hmemT : ds.getD i 1 ∈ ds.take (i + 1) := by
      rw [List.getD_eq_getElem _ _ hi]
      have hlen : i < (ds.take (i + 1)).length := by
        rw [List.length_take]
        omega
      have : (ds.take (i + 1))[i] = ds[i] := List.getElem_take ..
      rw [← this]
      exact List.getElem_mem hlen
    obtain ⟨c, hc⟩ : ds.getD i 1 ∣ (ds.take (i + 1)).prod := List.dvd_prod hmemT
    have hq : q * ds.prod + r = (ds.drop (i + 1)).prod * (q * (ds.take (i + 1)).prod) + r := by
      rw [← hsplit]
      ring
    rw [hq, Nat.mul_add_div hS0, hc]
    have hrw : q * (ds.getD i 1 * c) + r / (ds.drop (i + 1)).prod =
        r / (ds.drop (i + 1)).prod + q * c * ds.getD i 1 := by
      ring
    rw [hrw, Nat.add_mul_mod_self_right]
  · have h1 : ds.getD i 1 = 1 := by
      rw [List.getD_eq_default]
      omega
    rw [h1, Nat.mod_one, Nat.mod_one]

/-- Unfolding equation of cartesianProduct on a cons cell. -/
theorem cartesianProduct_cons {α : Type} (l : List α) (ls : List (List α)) :
    cartesianProduct (l :: ls) =
      l.flatMap (fun x => (cartesianProduct ls).map (fun c => x :: c)) := rfl

/-- The mixed-radix enumeration of kron_indices over all dimensions is
exactly the row-major Cartesian product of the per-dimension index ranges. -/
theorem kron_indices_eq_cartesianProduct (dims : List ℕ) :
    kron_indices dims (List.range dims.length) = cartesianProduct (dims.map List.range) := by
  induction dims with
  | nil => decide
  | cons d ds ih =>
    unfold kron_indices at ih ⊢
    rw [List.map_cons, cartesianProduct_cons, ← ih]
    rw [List.length_cons, List.prod_cons, range_mul_flatMap, List.map_flatMap]
    rw [List.flatMap_def, List.flatMap_def]
    refine congrArg List.flatten (List.map_congr_left fun q hq => ?_)
    rw [List.mem_range] at hq
    rw [List.map_map, List.map_map]
    refine List.map_congr_left fun r hr => ?_
    rw [List.mem_range] at hr
    show (List.range (ds.length + 1)).map (fun i => kronDigit (d :: ds) i (q * ds.prod + r)) =
      q :: (List.range ds.length).map (fun i => kronDigit ds i r)
    rw [List.range_succ_eq_map, List.map_cons, List.map_map]
    rw [kronDigit_head d ds q r hq hr]
    refine congrArg (q :: ·) (List.map_congr_left fun i _ => ?_)
    exact kronDigit_tail d ds i q r hr

/-- The Cartesian product of lists that are each without duplicates is
itself without duplicates. -/
theorem cartesianProduct_nodup {α : Type} (ls : List (List α)) (h : ∀ l ∈ ls, l.Nodup) :
    (cartesianProduct ls).Nodup := by
  induction ls with
  | nil => simp [cartesianProduct]
  | cons l ls ih =>
    rw [cartesianProduct_cons, List.nodup_flatMap]
    constructor
    · intro x _
      refine (ih fun m hm => h m (List.mem_cons_of_mem _ hm)).map ?_
      intro c1 c2 hc
      injection hc
    · have hl : l.Nodup := h l (List.mem_cons_self _ _)
      refine hl.imp ?_
      intro a b hab z hza hzb
      obtain ⟨c1, _, rfl⟩ := List.mem_map.1 hza
      obtain ⟨c2, _, h2⟩ := List.mem_map.1 hzb
      injection h2 with hba _
      exact hab hba.symm

/-- The Cartesian product has as many elements as the product of the factor
lengths. -/
theorem cartesianProduct_length {α : Type} (ls : List (List α)) :
    (cartesianProduct ls).length = (ls.map List.length).prod := by
  induction ls with
  | nil => rfl
  | cons l ls ih =>
    rw [cartesianProduct_cons, List.length_flatMap, List.map_cons, List.prod_cons]
    have h1 : l.map (List.length ∘ fun x => (cartesianProduct ls).map (fun c => x :: c)) =
        l.map (fun _ => (ls.map List.length).prod) := by
      refine List.map_congr_left fun x _ => ?_
      show ((cartesianProduct ls).map (fun c => x :: c)).length = _
      rw [List.length_map, ih]
    rw [h1, List.map_const', List.sum_replicate, smul_eq_mul]

/-- Reading every position of a list through getD over its index range gives
back the list. -/
theorem map_getD_range {α : Type} (d : α) (l : List α) :
    (List.range l.length).map (fun i => l.getD i d) = l := by
  induction l with
  | nil => rfl
  | cons a l ih =>
    rw [List.length_cons, List.range_succ_eq_map, List.map_cons, List.map_map,
      List.getD_cons_zero]
    refine congrArg (a :: ·) ?_
    calc (List.range l.length).map ((fun i => (a :: l).getD i d) ∘ Nat.succ)
        = (List.range l.length).map (fun i => l.getD i d) :=
          List.map_congr_left fun i _ => List.getD_cons_succ
      _ = l := ih

/-- The group-building loop peels one turbine at a time. -/
theorem selectComb_cons {α : Type} (d : α) (l : List α) (ls : List (List α))
    (x : ℕ) (c : List ℕ) :
    selectComb d (l :: ls) (x :: c) = l.getD x d :: selectComb d ls c := by
  unfold selectComb
  rw [List.length_cons, List.range_succ_eq_map, List.map_cons, List.map_map]
  rw [List.getD_cons_zero, List.getD_cons_zero]
  refine congrArg _ (List.map_congr_left fun k _ => ?_)
  show ((l :: ls).getD (k + 1) []).getD ((x :: c).getD (k + 1) 0) d = _
  rw [List.getD_cons_succ, List.getD_cons_succ]

/-- Selecting along every combination of positions enumerates the Cartesian
product of the lists themselves. -/
theorem map_selectComb_cartesianProduct {α : Type} (d : α) (ls : List (List α)) :
    (cartesianProduct (ls.map (fun l => List.range l.length))).map (selectComb d ls) =
      cartesianProduct ls := by
  induction ls with
  | nil => rfl
  | cons l ls ih =>
    rw [List.map_cons, cartesianProduct_cons, cartesianProduct_cons, List.map_flatMap]
    conv_rhs => rw [← map_getD_range d l]
    rw [List.flatMap_map]
    rw [List.flatMap_def, List.flatMap_def]
    refine congrArg List.flatten (List.map_congr_left fun x _ => ?_)
    show ((cartesianProduct (ls.map fun m => List.range m.length)).map
        (fun c => x :: c)).map (selectComb d (l :: ls)) =
      (cartesianProduct ls).map (fun c => l.getD x d :: c)
    rw [List.map_map, ← ih, List.map_map]
    refine List.map_congr_left fun c _ => ?_
    show selectComb d (l :: ls) (x :: c) = l.getD x d :: selectComb d ls c
    exact selectComb_cons d l ls x c

/-- C4: num_states of a plant is the product of the per-basin state counts in
configuration order; for the example plant with counts 81 and 41 the joint
state space has exactly 3321 states; and kron_indices over (81, 41) produces
exactly 3321 per-basin index combinations, each appearing once. -/
theorem C4_state_space_size (pp : PowerPlant) :
    pp.num_states = (pp.basins.map Basin.num_states).prod ∧
    examplePlant.num_states = 3321 ∧
    (kron_indices [81, 41] [0, 1]).length = 3321 ∧
    (kron_indices [81, 41] [0, 1]).Nodup := by
  refine ⟨rfl, by decide, ?_, ?_⟩
  · unfold kron_indices
    rw [List.length_map, List.length_range]
    decide
  · have h01 : ([0, 1] : List ℕ) = List.range ([81, 41] : List ℕ).length := by decide
    rw [h01, kron_indices_eq_cartesianProduct]
    refine cartesianProduct_nodup _ ?_
    intro l hl
    rw [List.mem_map] at hl
    obtain ⟨m, _, rfl⟩ := hl
    exact List.nodup_range m

/-- C5: turbine_actions gives, per turbine, exactly the configured actions
bound to that turbine; actions enumerates exactly the Cartesian product of
those per-turbine lists, one joint action per combination; its size is the
product of the per-turbine action counts; and for the two example turbines
with three actions each there are exactly 9 combinations. -/
theorem C5_action_space_product (ts : List Turbine) (cfg : List Action) :
    turbine_actions ts cfg = ts.map (fun t => cfg.filter (fun a => decide (a.turbine = t))) ∧
    actions ts cfg = cartesianProduct (turbine_actions ts cfg) ∧
    (actions ts cfg).length = ((turbine_actions ts cfg).map List.length).prod ∧
    (actions [turbine_1, turbine_2] exampleActions).length = 9 := by
  have key : ∀ (ts : List Turbine) (cfg : List Action),
      actions ts cfg = cartesianProduct (turbine_actions ts cfg) := by
    intro ts cfg
    unfold actions
    rw [kron_indices_eq_cartesianProduct, List.map_map]
    exact map_selectComb_cartesianProduct defaultAction (turbine_actions ts cfg)
  refine ⟨rfl, key ts cfg, ?_, ?_⟩
  · rw [key ts cfg, cartesianProduct_length]
  · have hne12 : ¬ (turbine_1 = turbine_2) := by
      unfold turbine_1 turbine_2
      intro h
      injection h with hname _
      exact absurd hname (by decide)
    have hne21 : ¬ (turbine_2 = turbine_1) := fun h => hne12 h.symm
    have d11 : decide (turbine_1 = turbine_1) = true := decide_eq_true rfl
    have d22 : decide (turbine_2 = turbine_2) = true := decide_eq_true rfl
    have d12 : decide (turbine_1 = turbine_2) = false := decide_eq_false hne12
    have d21 : decide (turbine_2 = turbine_1) = false := decide_eq_false hne21
    have hta : (turbine_actions [turbine_1, turbine_2] exampleActions).map List.length =
        [3, 3] := by
      unfold turbine_actions exampleActions
      simp [List.filter_cons, d11, d22, d12, d21, hne12, hne21]
    rw [key [turbine_1, turbine_2] exampleActions, cartesianProduct_length, hta]
    decide

/-- The wedge branch of compute_vol_to_level_lut always succeeds. -/
theorem compute_wedge_ok (empty full volume : ℚ) (n : ℕ) :
    compute_vol_to_level_lut empty full volume n "wedge" =
      .ok (wedge_lut empty full volume n) := by
  unfold compute_vol_to_level_lut
  rw [if_pos rfl]

/-- Interpolating a table at an abscissa stored in the table returns the
stored ordinate, for tables whose rows are sorted by abscissa, repeated
points being allowed only as repeated rows. -/
theorem interp_mem_control : ∀ (l : List (ℚ × ℝ)),
    l.Pairwise (fun p q => p.1 < q.1 ∨ p = q) →
    ∀ p : ℚ × ℝ, p ∈ l → interp p.1 l = p.2 := by
  intro l
  induction l with
  | nil =>
    intro _ p hp
    simp at hp
  | cons p0 tl ih =>
    intro hs p hp
    rcases List.pairwise_cons.1 hs with ⟨h0, hs1⟩
    cases tl with
    | nil =>
      obtain ⟨x0, y0⟩ := p0
      have : p = (x0, y0) := by
        rcases List.mem_cons.1 hp with rfl | hmem
        · rfl
        · simp at hmem
      rw [this]
      simp [interp]
    | cons p1 rest =>
      obtain ⟨x0, y0⟩ := p0
      obtain ⟨x1, y1⟩ := p1
      rcases List.mem_cons.1 hp with rfl | hmem
      · simp [interp]
      rcases h0 p hmem with hlt0 | heq0
      · have hnle0 : ¬ p.1 ≤ x0 := not_le.2 hlt0
        rcases List.mem_cons.1 hmem with rfl | hmem1
        · have hne : ((x1 : ℝ)) - (x0 : ℝ) ≠ 0 := by
            have hq : (x0 : ℝ) < (x1 : ℝ) := by exact_mod_cast hlt0
            linarith
          simp only [interp]
          rw [if_neg hnle0, if_pos (le_refl _)]
          field_simp
        · rcases (List.pairwise_cons.1 hs1).1 p hmem1 with hlt1 | heq1
          · simp only [interp]
            rw [if_neg hnle0, if_neg (not_le.2 hlt1)]
            exact ih hs1 p (List.mem_cons_of_mem _ hmem1)
          · rw [← heq1]
            rw [← heq1] at hlt0
            have hne : ((x1 : ℝ)) - (x0 : ℝ) ≠ 0 := by
              have hq : (x0 : ℝ) < (x1 : ℝ) := by exact_mod_cast hlt0
              linarith
            simp only [interp]
            rw [if_neg (not_le.2 hlt0), if_pos (le_refl _)]
            field_simp
      · rw [← heq0]
        simp [interp]

/-- The linspace grid is sorted whenever the endpoints are ordered. -/
theorem linspace_pairwise (a b : ℚ) (n : ℕ) (hab : a ≤ b) :
    (linspace a b n).Pairwise (· ≤ ·) := by
  unfold linspace
  rw [List.pairwise_map]
  refine List.Pairwise.imp_of_mem ?_ (List.pairwise_lt_range n)
  intro i j hi hj hij
  rw [List.mem_range] at hi hj
  have h2 : 2 ≤ n := by omega
  have hn1 : (0:ℚ) < (n:ℚ) - 1 := by
    have h2q : (2:ℚ) ≤ (n:ℚ) := by exact_mod_cast h2
    linarith
  have hijq : (i:ℚ) ≤ (j:ℚ) := by exact_mod_cast Nat.le_of_lt hij
  have hba : (0:ℚ) ≤ b - a := by linarith
  gcongr

/-- The linspace grid over [0, volume] is monotone in the index. -/
theorem linspace_getD_mono (volume : ℚ) (n i j : ℕ) (hV : 0 ≤ volume)
    (hij : i ≤ j) (hj : j < n) :
    (linspace 0 volume n).getD i 0 ≤ (linspace 0 volume n).getD j 0 := by
  rw [linspace_getD 0 volume n i (lt_of_le_of_lt hij hj), linspace_getD 0 volume n j hj]
  rcases Nat.eq_or_lt_of_le hij with rfl | hlt
  · exact le_refl _
  · have h2 : 2 ≤ n := by omega
    have hn1 : (0:ℚ) < (n:ℚ) - 1 := by
      have h2q : (2:ℚ) ≤ (n:ℚ) := by exact_mod_cast h2
      linarith
    have hijq : (i:ℚ) ≤ (j:ℚ) := by exact_mod_cast hij
    have hsub : (0:ℚ) ≤ volume - 0 := by linarith
    gcongr

/-- C6: for a BasinLevels whose lookup table was computed by the wedge shape
model, the values property (the table interpolated at the num_states evenly
spaced grid volumes) is exactly the level column of the table: no
interpolation error at control points. -/
theorem C6_values_at_grid_points (empty full volume : ℚ) (n : ℕ) (hV : 0 ≤ volume)
    (lut : List (ℚ × ℝ))
    (h : compute_vol_to_level_lut empty full volume n "wedge" = .ok lut) :
    lut_values volume n lut = lut.map Prod.snd := by
  have hlut : lut = (linspace 0 volume n).map (fun v =>
      (v, if empty < full
          then Real.sqrt ((v / (volume / (full - empty) ^ 2) : ℚ) : ℝ) + (empty : ℝ)
          else (empty : ℝ))) := by
    have hok := compute_wedge_ok empty full volume n
    rw [h] at hok
    rw [Except.ok.inj hok, wedge_lut_eq_map]
  have hpair : lut.Pairwise (fun p q => p.1 < q.1 ∨ p = q) := by
    rw [hlut, List.pairwise_map]
    refine List.Pairwise.imp ?_ (linspace_pairwise 0 volume n hV)
    intro a b hab
    rcases lt_or_eq_of_le hab with hlt | rfl
    · exact Or.inl hlt
    · exact Or.inr rfl
  have hfst : lut.map Prod.fst = linspace 0 volume n := by
    rw [hlut, List.map_map]
    refine (List.map_congr_left fun v _ => rfl).trans (List.map_id _)
  unfold lut_values
  rw [← hfst, List.map_map]
  refine List.map_congr_left fun p hp => ?_
  show interp p.1 lut = p.2
  exact interp_mem_control lut hpair p hp

/-- C6 witness: the theorem at the concrete wedge table for empty 0, full 1,
volume 1, two states. -/
theorem C6_values_at_grid_points_witness :
    (0:ℚ) ≤ 1 ∧
    compute_vol_to_level_lut 0 1 1 2 "wedge" = .ok (wedge_lut 0 1 1 2) ∧
    lut_values 1 2 (wedge_lut 0 1 1 2) = (wedge_lut 0 1 1 2).map Prod.snd :=
  ⟨by norm_num, compute_wedge_ok 0 1 1 2,
    C6_values_at_grid_points 0 1 1 2 (by norm_num) _ (compute_wedge_ok 0 1 1 2)⟩

/-- C7: for a wedge table with empty below full and nonnegative volume, the
level column is non-decreasing along the volume grid. -/
theorem C7_level_monotone (empty full volume : ℚ) (n : ℕ) (lut : List (ℚ × ℝ))
    (hef : empty < full) (hV : 0 ≤ volume)
    (h : compute_vol_to_level_lut empty full volume n "wedge" = .ok lut)
    (i j : ℕ) (hij : i ≤ j) (hj : j < lut.length) :
    (lut.getD i (0, 0)).2 ≤ (lut.getD j (0, 0)).2 := by
  have hlut : lut = (linspace 0 volume n).map (fun v =>
      (v, if empty < full
          then Real.sqrt ((v / (volume / (full - empty) ^ 2) : ℚ) : ℝ) + (empty : ℝ)
          else (empty : ℝ))) := by
    have hok := compute_wedge_ok empty full volume n
    rw [h] at hok
    rw [Except.ok.inj hok, wedge_lut_eq_map]
  subst hlut
  rw [List.length_map] at hj
  have hlenls : (linspace 0 volume n).length = n := by
    unfold linspace
    rw [List.length_map, List.length_range]
  have hjn : j < n := by
    rw [hlenls] at hj
    exact hj
  have hin : i < n := lt_of_le_of_lt hij hjn
  have hgi : ∀ k : ℕ, k < n → (((linspace 0 volume n).map (fun v =>
      (v, if empty < full
          then Real.sqrt ((v / (volume / (full - empty) ^ 2) : ℚ) : ℝ) + (empty : ℝ)
          else (empty : ℝ)))).getD k (0, 0)) =
      ((linspace 0 volume n).getD k 0,
        if empty < full
        then Real.sqrt ((((linspace 0 volume n).getD k 0) /
          (volume / (full - empty) ^ 2) : ℚ) : ℝ) + (empty : ℝ)
        else (empty : ℝ)) := by
    intro k hk
    have hk2 : k < ((linspace 0 volume n).map (fun v =>
        (v, if empty < full
            then Real.sqrt ((v / (volume / (full - empty) ^ 2) : ℚ) : ℝ) + (empty : ℝ)
            else (empty : ℝ)))).length := by
      rw [List.length_map, hlenls]
      exact hk
    rw [List.getD_eq_getElem _ _ hk2, List.getElem_map,
      List.getD_eq_getElem _ _ (by rw [hlenls]; exact hk)]
  rw [hgi i hin, hgi j hjn]
  simp only [if_pos hef]
  have hL : (0:ℚ) ≤ volume / (full - empty) ^ 2 := div_nonneg hV (sq_nonneg _)
  have hmono : (linspace 0 volume n).getD i 0 ≤ (linspace 0 volume n).getD j 0 :=
    linspace_getD_mono volume n i j hV hij hjn
  have hdiv : ((linspace 0 volume n).getD i 0) / (volume / (full - empty) ^ 2) ≤
      ((linspace 0 volume n).getD j 0) / (volume / (full - empty) ^ 2) := by
    rcases lt_or_eq_of_le hL with hL0 | hL0
    · gcongr
    · rw [← hL0, div_zero, div_zero]
  have hcast : ((((linspace 0 volume n).getD i 0) / (volume / (full - empty) ^ 2) : ℚ) : ℝ) ≤
      ((((linspace 0 volume n).getD j 0) / (volume / (full - empty) ^ 2) : ℚ) : ℝ) := by
    exact_mod_cast hdiv
  exact add_le_add_right (Real.sqrt_le_sqrt hcast) _

/-- C7 witness: the theorem at the concrete wedge table for empty 0, full 1,
volume 1, two states, at the grid indices 0 and 1. -/
theorem C7_level_monotone_witness :
    (0:ℚ) < 1 ∧ (0:ℚ) ≤ 1 ∧
    compute_vol_to_level_lut 0 1 1 2 "wedge" = .ok (wedge_lut 0 1 1 2) ∧
    (0:ℕ) ≤ 1 ∧ 1 < (wedge_lut 0 1 1 2).length ∧
    ((wedge_lut 0 1 1 2).getD 0 (0, 0)).2 ≤ ((wedge_lut 0 1 1 2).getD 1 (0, 0)).2 := by
  have hlen : (wedge_lut 0 1 1 2).length = 2 := by
    rw [wedge_lut_eq_map, List.length_map]
    unfold linspace
    rw [List.length_map, List.length_range]
  refine ⟨by norm_num, by norm_num, compute_wedge_ok 0 1 1 2, by norm_num,
    by rw [hlen]; norm_num, ?_⟩
  exact C7_level_monotone 0 1 1 2 _ (by norm_num) (by norm_num)
    (compute_wedge_ok 0 1 1 2) 0 1 (by norm_num) (by rw [hlen]; norm_num)

/-- Basin.kron_levels on a basin bound to a plant that contains it: the
values fancy-indexed by kron_index at the basin position. -/
theorem kron_levels_of_bound (b : Basin) (pp : PowerPlant) (i : ℕ)
    (hidx : pp.basin_index b = some i) :
    (BoundBasin.mk b (some pp)).kron_levels =
      Except.ok (NpArr.vec ((kron_index pp.basin_num_states i).map
        (fun j => b.values.getD j 0))) := by
  simp only [BoundBasin.kron_levels, hidx]

/-- Turbine.power against a known head value. -/
theorem power_eq_of_head (t : Turbine) (h : NpArr) (hh : t.head = .ok h) (f : NpArr) :
    t.power f = npMul (npMulC ((t.efficiency : ℝ) * (1000 * 9.81)) h) f := by
  unfold Turbine.power
  rw [hh]

/-- Turbine.flow_rate against a known head value. -/
theorem flow_rate_eq_of_head (t : Turbine) (h : NpArr) (hh : t.head = .ok h) (pw : NpArr) :
    t.flow_rate pw = npDiv (npDivC pw ((t.efficiency : ℝ) * (1000 * 9.81))) h := by
  unfold Turbine.flow_rate
  rw [hh]

/-- C2 counterexample: a turbine with efficiency zero has positive head, yet
feeding power(1) back through flow_rate returns zero, not the original flow
of one; the claimed inverse law fails for it even though head() is positive
in every component, so the claim as stated, quantified over every turbine,
is false. -/
theorem C2_counterexample :
    (∃ h, cexTurbine.head = .ok h ∧ NpAll (fun x => 0 < x) h) ∧
    (∃ pw, cexTurbine.power (.scalar 1) = .ok pw ∧
      ∃ fr, cexTurbine.flow_rate pw = .ok fr ∧ ¬ NpAll (fun x => x = 1) fr) := by
  have hhead : cexTurbine.head = .ok (.scalar (((10:ℚ):ℝ) - ((0:ℚ):ℝ))) := rfl
  constructor
  · refine ⟨_, hhead, ?_⟩
    show (0:ℝ) < ((10:ℚ):ℝ) - ((0:ℚ):ℝ)
    norm_num
  · refine ⟨.scalar ((((0:ℚ):ℝ) * (1000 * 9.81) * (((10:ℚ):ℝ) - ((0:ℚ):ℝ))) * 1), ?_, ?_⟩
    · rw [power_eq_of_head cexTurbine _ hhead]
      rfl
    · refine ⟨.scalar (((((0:ℚ):ℝ) * (1000 * 9.81) * (((10:ℚ):ℝ) - ((0:ℚ):ℝ))) * 1 /
        (((0:ℚ):ℝ) * (1000 * 9.81))) / (((10:ℚ):ℝ) - ((0:ℚ):ℝ))), ?_, ?_⟩
      · rw [flow_rate_eq_of_head cexTurbine _ hhead]
        rfl
      · show ¬ ((((0:ℚ):ℝ) * (1000 * 9.81) * (((10:ℚ):ℝ) - ((0:ℚ):ℝ))) * 1 /
          (((0:ℚ):ℝ) * (1000 * 9.81))) / (((10:ℚ):ℝ) - ((0:ℚ):ℝ)) = 1
        push_cast
        norm_num

/-- C2 amended: power(flow_rate) is efficiency times 1000 times 9.81 times
head times flow_rate, and, for a turbine with nonzero efficiency whose head
is positive in every joint-state component, flow_rate inverts power and power
inverts flow_rate componentwise. -/
theorem C2_power_flow_rate_inverse (t : Turbine) (h : NpArr)
    (hh : t.head = .ok h) (hpos : NpAll (fun x => 0 < x) h) (heff : t.efficiency ≠ 0)
    (q p : ℝ) :
    t.power (.scalar q) = .ok (npMulC ((t.efficiency : ℝ) * (1000 * 9.81) * q) h) ∧
    (∃ pw, t.power (.scalar q) = .ok pw ∧
      ∃ fr, t.flow_rate pw = .ok fr ∧ NpAll (fun x => x = q) fr) ∧
    (∃ fr, t.flow_rate (.scalar p) = .ok fr ∧
      ∃ pw, t.power fr = .ok pw ∧ NpAll (fun x => x = p) pw) := by
  have hc : ((t.efficiency : ℝ) * (1000 * 9.81)) ≠ 0 := by
    refine mul_ne_zero ?_ (by norm_num)
    exact_mod_cast heff
  cases h with
  | scalar x =>
    have hx : (0:ℝ) < x := hpos
    have hx0 : x ≠ 0 := ne_of_gt hx
    refine ⟨?_, ?_, ?_⟩
    · rw [power_eq_of_head t _ hh]
      simp only [npMulC, npMul, Except.ok.injEq, NpArr.scalar.injEq]
      ring
    · refine ⟨.scalar ((t.efficiency : ℝ) * (1000 * 9.81) * x * q), ?_, ?_⟩
      · rw [power_eq_of_head t _ hh]
        rfl
      · refine ⟨.scalar (((t.efficiency : ℝ) * (1000 * 9.81) * x * q /
          ((t.efficiency : ℝ) * (1000 * 9.81))) / x), ?_, ?_⟩
        · rw [flow_rate_eq_of_head t _ hh]
          rfl
        · show ((t.efficiency : ℝ) * (1000 * 9.81) * x * q /
            ((t.efficiency : ℝ) * (1000 * 9.81))) / x = q
          field_simp
    · refine ⟨.scalar ((p / ((t.efficiency : ℝ) * (1000 * 9.81))) / x), ?_, ?_⟩
      · rw [flow_rate_eq_of_head t _ hh]
        rfl
      · refine ⟨.scalar ((t.efficiency : ℝ) * (1000 * 9.81) * x *
          ((p / ((t.efficiency : ℝ) * (1000 * 9.81))) / x)), ?_, ?_⟩
        · rw [power_eq_of_head t _ hh]
          rfl
        · show (t.efficiency : ℝ) * (1000 * 9.81) * x *
            ((p / ((t.efficiency : ℝ) * (1000 * 9.81))) / x) = p
          field_simp
  | vec xs =>
    have hxs : ∀ x ∈ xs, (0:ℝ) < x := hpos
    refine ⟨?_, ?_, ?_⟩
    · rw [power_eq_of_head t _ hh]
      simp only [npMulC, npMul, Except.ok.injEq, NpArr.vec.injEq]
      rw [List.map_map]
      refine List.map_congr_left fun x _ => ?_
      show (t.efficiency : ℝ) * (1000 * 9.81) * x * q =
        (t.efficiency : ℝ) * (1000 * 9.81) * q * x
      ring
    · refine ⟨.vec (xs.map fun x => (t.efficiency : ℝ) * (1000 * 9.81) * x * q), ?_, ?_⟩
      · rw [power_eq_of_head t _ hh]
        simp only [npMulC, npMul, Except.ok.injEq, NpArr.vec.injEq]
        rw [List.map_map]
        rfl
      · refine ⟨.vec (xs.map fun x => ((t.efficiency : ℝ) * (1000 * 9.81) * x * q /
          ((t.efficiency : ℝ) * (1000 * 9.81))) / x), ?_, ?_⟩
        · rw [flow_rate_eq_of_head t _ hh]
          simp only [npDivC, npDiv]
          rw [if_pos (by simp)]
          rw [List.map_map, List.zipWith_map_left, List.zipWith_same]
          rfl
        · intro y hy
          obtain ⟨x, hx, rfl⟩ := List.mem_map.1 hy
          have hx0 : x ≠ 0 := ne_of_gt (hxs x hx)
          field_simp
    · refine ⟨.vec (xs.map fun x =>
        (p / ((t.efficiency : ℝ) * (1000 * 9.81))) / x), ?_, ?_⟩
      · rw [flow_rate_eq_of_head t _ hh]
        rfl
      · refine ⟨.vec (xs.map fun x => (t.efficiency : ℝ) * (1000 * 9.81) * x *
          ((p / ((t.efficiency : ℝ) * (1000 * 9.81))) / x)), ?_, ?_⟩
        · rw [power_eq_of_head t _ hh]
          simp only [npMulC, npMul]
          rw [if_pos (by simp)]
          rw [List.zipWith_map_left, List.zipWith_map_right, List.zipWith_same]
        · intro y hy
          obtain ⟨x, hx, rfl⟩ := List.mem_map.1 hy
          have hx0 : x ≠ 0 := ne_of_gt (hxs x hx)
          field_simp

/-- C2 witness: the amended theorem at the efficiency-one witness turbine,
whose head is the positive scalar 10, with flow 2 and power 3. -/
theorem C2_power_flow_rate_inverse_witness :
    witTurbine.head = .ok (.scalar (((10:ℚ):ℝ) - ((0:ℚ):ℝ))) ∧
    NpAll (fun x => 0 < x) (.scalar (((10:ℚ):ℝ) - ((0:ℚ):ℝ))) ∧
    witTurbine.efficiency ≠ 0 ∧
    (witTurbine.power (.scalar 2) =
      .ok (npMulC ((witTurbine.efficiency : ℝ) * (1000 * 9.81) * 2)
        (.scalar (((10:ℚ):ℝ) - ((0:ℚ):ℝ)))) ∧
     (∃ pw, witTurbine.power (.scalar 2) = .ok pw ∧
       ∃ fr, witTurbine.flow_rate pw = .ok fr ∧ NpAll (fun x => x = 2) fr) ∧
     (∃ fr, witTurbine.flow_rate (.scalar 3) = .ok fr ∧
       ∃ pw, witTurbine.power fr = .ok pw ∧ NpAll (fun x => x = 3) pw)) := by
  have hpos : NpAll (fun x => 0 < x) (NpArr.scalar (((10:ℚ):ℝ) - ((0:ℚ):ℝ))) := by
    show (0:ℝ) < ((10:ℚ):ℝ) - ((0:ℚ):ℝ)
    norm_num
  have heff : witTurbine.efficiency ≠ 0 := by
    show (1:ℚ) ≠ 0
    norm_num
  exact ⟨rfl, hpos, heff,
    C2_power_flow_rate_inverse witTurbine _ rfl hpos heff 2 3⟩

/-- C3: for a turbine whose lower basin is an outflow sink that was never
placed in a basins list (so its power_plant attribute is None), kron_levels
of the sink is the scalar outflow level, not a joint-state vector, and head()
is the upper basin broadcast level minus the constant outflow level in every
joint-state component, independent of any state index of the sink. -/
theorem C3_outflow_head (t : Turbine) (level : ℚ) (nm : String) (us : List ℝ)
    (hlow : t.lower_basin = ⟨Outflow level nm, none⟩)
    (hup : t.upper_basin.kron_levels = .ok (.vec us)) :
    t.lower_basin.kron_levels = .ok (.scalar (level : ℝ)) ∧
    t.head = .ok (.vec (us.map (fun u => u - (level : ℝ)))) := by
  have h1 : t.lower_basin.kron_levels = .ok (.scalar (level : ℝ)) := by
    rw [hlow]
    rfl
  refine ⟨h1, ?_⟩
  unfold Turbine.head
  rw [hup, h1]
  rfl

/-- C3 witness: the theorem at the witness turbine over the one-basin plant
with a constant level 5 basin of two states and an outflow at level 0. -/
theorem C3_outflow_head_witness :
    witTurbine3.lower_basin = ⟨Outflow 0 "Outflow", none⟩ ∧
    witTurbine3.upper_basin.kron_levels = .ok (.vec [((5:ℚ):ℝ), ((5:ℚ):ℝ)]) ∧
    (witTurbine3.lower_basin.kron_levels = .ok (.scalar ((0:ℚ) : ℝ)) ∧
     witTurbine3.head =
       .ok (.vec ([((5:ℚ):ℝ), ((5:ℚ):ℝ)].map (fun u => u - ((0:ℚ) : ℝ))))) := by
  have hidx : witPlant.basin_index (mkBasin "b1" 1 2 0 (.single 5)) = some 0 := rfl
  have hls : linspace 0 1 2 = [0, 1] := by
    unfold linspace
    rw [show List.range 2 = [0, 1] by decide]
    norm_num
  have hlut : wedge_lut 5 5 1 2 = [(0, ((5:ℚ):ℝ)), (1, ((5:ℚ):ℝ))] := by
    rw [wedge_lut_eq_map]
    rw [show ((fun v : ℚ =>
        (v, if (5:ℚ) < 5
            then Real.sqrt ((v / (1 / ((5:ℚ) - 5) ^ 2) : ℚ) : ℝ) + ((5:ℚ) : ℝ)
            else ((5:ℚ) : ℝ)))) = (fun v : ℚ => (v, ((5:ℚ) : ℝ))) by
      funext v
      rw [if_neg (lt_irrefl (5:ℚ))]]
    rw [hls]
    rfl
  have hvals : Basin.values (mkBasin "b1" 1 2 0 (.single 5)) = [((5:ℚ):ℝ), ((5:ℚ):ℝ)] := by
    show lut_values 1 2 (wedge_lut 5 5 1 2) = [((5:ℚ):ℝ), ((5:ℚ):ℝ)]
    unfold lut_values
    rw [hlut, hls]
    show [interp 0 [(0, ((5:ℚ):ℝ)), (1, ((5:ℚ):ℝ))],
      interp 1 [(0, ((5:ℚ):ℝ)), (1, ((5:ℚ):ℝ))]] = [((5:ℚ):ℝ), ((5:ℚ):ℝ)]
    have h1 : interp 0 [(0, ((5:ℚ):ℝ)), (1, ((5:ℚ):ℝ))] = ((5:ℚ):ℝ) := by
      simp only [interp]
      rw [if_pos (le_refl (0:ℚ))]
    have h2 : interp 1 [(0, ((5:ℚ):ℝ)), (1, ((5:ℚ):ℝ))] = ((5:ℚ):ℝ) := by
      simp only [interp]
      rw [if_neg (by norm_num), if_pos (le_refl (1:ℚ))]
      ring
    rw [h1, h2]
  have hup : witTurbine3.upper_basin.kron_levels = .ok (.vec [((5:ℚ):ℝ), ((5:ℚ):ℝ)]) := by
    show (BoundBasin.mk (mkBasin "b1" 1 2 0 (.single 5)) (some witPlant)).kron_levels =
      Except.ok (NpArr.vec [((5:ℚ):ℝ), ((5:ℚ):ℝ)])
    rw [kron_levels_of_bound (mkBasin "b1" 1 2 0 (.single 5)) witPlant 0 hidx]
    rw [show kron_index witPlant.basin_num_states 0 = [0, 1] by decide]
    rw [hvals]
    rfl
  exact ⟨rfl, hup, C3_outflow_head witTurbine3 0 "Outflow" _ rfl hup⟩

end Hydropt
